import Mathlib

/-!
# FlowState audio pipeline — verification of the spec against the code

Shallow embedding of the core algorithmic parts of `src/FlowState.py`
(with the variants `FlowState_stable.py`, `FlowState_v1.py` where the
claims cite them): track analysis and energy classification, sequence
optimization, crossfade-safety arithmetic, binaural synthesis, loop
expansion, export-name sanitization, video-mode dispatch, and the
error-handling control flow of the processing thread.

Durations, loudness values and frequencies are embedded as `ℚ`
(the Python floats are used only for exact small arithmetic in the
properties checked here).
-/

namespace FlowState

/-- Track descriptor produced by `FFmpegAnalyzer.analyze` (FlowState.py 356-428).
Only the fields the claims touch are kept. -/
structure AudioTrack where
  path : String
  duration : ℚ
  loudness_lufs : ℚ
  peak_db : ℚ
  energy_profile : String
  deriving DecidableEq, Repr

/-! ## C6 — energy classification (FlowState.py 386-407)

`analyze` initialises `rms_loudness = -20.0` and overwrites it only when a
line of the ffmpeg ebur128 output parses as `I: <x> LUFS`; the parsed
loudness is therefore modelled as an `Option ℚ`, `none` meaning the
measurement failed to parse. -/

/-- The threshold classification at FlowState.py 401-407:
`if rms_loudness < -25: low elif rms_loudness < -18: mid else: high`. -/
def energy_of_loudness (l : ℚ) : String :=
  if l < -25 then "low" else if l < -18 then "mid" else "high"

/-- Energy profile produced by `analyze`: the default `-20.0` stands in when
no loudness was parsed (FlowState.py 388, 392-395). -/
def analyze_energy (parsed_loudness : Option ℚ) : String :=
  energy_of_loudness (parsed_loudness.getD (-20))

/-! ## Python primitives

Python's `min`, `max` and `abs` on floats, embedded as comparison-based
functions on `ℚ` (kept explicit so every definition evaluates by kernel
reduction). -/

/-- Python `min(a, b)`. -/
def qmin (a b : ℚ) : ℚ := if a ≤ b then a else b

/-- Python `max(a, b)`. -/
def qmax (a b : ℚ) : ℚ := if b ≤ a then a else b

/-- Python `abs(x)`. -/
def qabs (a : ℚ) : ℚ := if a < 0 then -a else a

/-! ## C2 — SequenceOptimizer.optimize (FlowState.py 434-461) -/

/-- `energy_order = {"low": 0, "mid": 1, "high": 2, "unknown": 1}` with
`.get(..., 1)` default (FlowState.py 445-446). -/
def energy_rank (e : String) : ℕ :=
  if e = "low" then 0 else if e = "mid" then 1 else if e = "high" then 2 else 1

/-- One step of a stable sort by energy rank: insert `t` after every
already-placed element of rank ≤ its own (Python `sorted` is stable). -/
def insertRank (t : AudioTrack) : List AudioTrack → List AudioTrack
  | [] => [t]
  | x :: xs => if energy_rank x.energy_profile ≤ energy_rank t.energy_profile
      then x :: insertRank t xs else t :: x :: xs

/-- `sorted(tracks, key=energy_order.get(...))` (FlowState.py 446): stable
sort by energy rank, modelled as left-to-right stable insertion. -/
def sortByRank (l : List AudioTrack) : List AudioTrack :=
  l.foldl (fun acc t => insertRank t acc) []

/-- Index scan behind `min(range(len(remaining)), key=lambda i: abs(...))`
(FlowState.py 455-458): first index attaining the minimal absolute loudness
difference (Python `min` keeps the earliest of equal keys, so only a
strictly smaller key updates the best index). -/
def argminAux (cur : ℚ) : List AudioTrack → ℕ → ℚ → ℕ → ℕ
  | [], _, _, bi => bi
  | y :: ys, i, bv, bi =>
      if qabs (y.loudness_lufs - cur) < bv
      then argminAux cur ys (i + 1) (qabs (y.loudness_lufs - cur)) i
      else argminAux cur ys (i + 1) bv bi

/-- `best_idx` for a non-empty remaining pool. -/
def argminIdx (cur : ℚ) : List AudioTrack → ℕ
  | [] => 0
  | x :: xs => argminAux cur xs 1 (qabs (x.loudness_lufs - cur)) 0

/-- The greedy `while remaining:` loop (FlowState.py 452-459): repeatedly
pop the closest-loudness track. Fuel equals the pool length at entry. -/
def greedyAux (cur : ℚ) : ℕ → List AudioTrack → List AudioTrack
  | 0, _ => []
  | _, [] => []
  | fuel + 1, x :: xs =>
      let i := argminIdx cur (x :: xs)
      let chosen := (x :: xs).getD i x
      chosen :: greedyAux chosen.loudness_lufs fuel ((x :: xs).eraseIdx i)

/-- `SequenceOptimizer.optimize` (FlowState.py 434-461). -/
def optimize (tracks : List AudioTrack) : List AudioTrack :=
  if tracks.length ≤ 1 then tracks
  else
    match sortByRank tracks with
    | [] => []
    | s :: rest => s :: greedyAux s.loudness_lufs rest.length rest

/-- The coarse-ordering property claimed of the optimizer output:
energy-class rank never decreases along the list. -/
def ranksMonotone (l : List AudioTrack) : Prop :=
  l.Chain' (fun a b => energy_rank a.energy_profile ≤ energy_rank b.energy_profile)

/-- Rank comparison underlying the stable sort. -/
def rankLE (a b : AudioTrack) : Prop :=
  energy_rank a.energy_profile ≤ energy_rank b.energy_profile

instance ranksMonotone.decidable (l : List AudioTrack) : Decidable (ranksMonotone l) := by
  unfold ranksMonotone
  infer_instance

/-! ## C1 — safe crossfade (FlowState.py 640-643) -/

/-- Python `min` over a non-empty generator `min(t.duration for t in tracks)`. -/
def listMin (x : ℚ) (xs : List ℚ) : ℚ := xs.foldl qmin x

/-- `safe_crossfade = min(self.config.crossfade_seconds, min_duration / 2, 4.0)`
(FlowState.py 643), for a first track duration `d` and the remaining
durations `ds`. -/
def safe_crossfade (crossfade_seconds : ℚ) (d : ℚ) (ds : List ℚ) : ℚ :=
  qmin (qmin crossfade_seconds (listMin d ds / 2)) 4

/-- Modelled from the spec: the safe crossfade the spec prescribes,
`min(configured crossfadeSeconds, shortestTrackDuration / 2)` — no fixed
ceiling. Kept separate to compare with the source's `safe_crossfade`. -/
def spec_safe_crossfade (crossfade_seconds : ℚ) (d : ℚ) (ds : List ℚ) : ℚ :=
  qmin crossfade_seconds (listMin d ds / 2)

/-! ## C3 — single-track fade/normalize filter (FlowState.py 700-710) -/

/-- The parameters of the filter chain built by `_normalize_track`:
`afade=t=in:ss=0:d=<fadeIn>, afade=t=out:st=0:d=<fadeOut>,
aloudnorm=I=<target>:TP=-1.5`. Note the fade-out start is the literal `0`
in the code, independent of the track duration. -/
structure NormalizeFilter where
  fade_in_start : ℚ
  fade_in_dur : ℚ
  fade_out_start : ℚ
  fade_out_dur : ℚ
  loudnorm_I : ℚ
  loudnorm_TP : ℚ
  deriving DecidableEq, Repr

/-- `_normalize_track`'s filter chain as a function of the config. -/
def normalize_track_filter (fade_in_seconds fade_out_seconds target_loudness : ℚ) :
    NormalizeFilter :=
  { fade_in_start := 0
    fade_in_dur := fade_in_seconds
    fade_out_start := 0
    fade_out_dur := fade_out_seconds
    loudnorm_I := target_loudness
    loudnorm_TP := -3/2 }

/-- The fade-out start used for the LAST track of a multi-track sequence
(FlowState.py 666): `fade_start = max(0, duration - fade_out_seconds)` —
the fade-out ends exactly at track end there. -/
def last_track_fade_start (duration fade_out_seconds : ℚ) : ℚ :=
  qmax 0 (duration - fade_out_seconds)

/-! ## C4 — loop expansion (FlowState.py 573-580, 784-801) -/

/-- Output duration of `_loop_audio`: the source is repeated without bound
(`-stream_loop -1`) and the encode stops at `-t target_duration`, so the
output lasts the smaller of the total looped material and the target. For
a source of positive duration enough repetitions exist, modelled by the
ceiling repetition count. -/
def loop_audio_duration (src_duration target_duration : ℚ) : ℚ :=
  if 0 < src_duration
  then qmin ((⌈target_duration / src_duration⌉ : ℤ) * src_duration) target_duration
  else 0

/-- Guard of the loop stage in `AudioProcessor.process` (FlowState.py
574-578): loop mode on, positive target, and current duration short of it. -/
def loop_ran (loop_mode : Bool) (target_duration_minutes current_duration : ℚ) : Prop :=
  loop_mode = true ∧ 0 < target_duration_minutes ∧
    current_duration < target_duration_minutes * 60

instance loop_ran.decidable (m : Bool) (t c : ℚ) : Decidable (loop_ran m t c) := by
  unfold loop_ran
  infer_instance

/-- Duration of `final_audio` after the loop stage (FlowState.py 573-580):
`_loop_audio` replaces it only under the guard, else it is left unchanged. -/
def loop_stage_duration (loop_mode : Bool) (target_duration_minutes current_duration : ℚ) : ℚ :=
  if loop_ran loop_mode target_duration_minutes current_duration
  then loop_audio_duration current_duration (target_duration_minutes * 60)
  else current_duration

/-! ## C5 — export-name sanitization (FlowState.py 762-767, FlowState_v1.py 112-115) -/

/-- The character filter of
`"".join(c for c in name if c.isalnum() or c in "-_ ")` (ASCII fragment of
Python `str.isalnum`). -/
def keep_char (c : Char) : Bool :=
  c.isAlphanum || c = '-' || c = '_' || c = ' '

/-- Python `.strip()` applied to the filtered character list: the only
whitespace the filter lets through is the space, so stripping removes
leading and trailing spaces. -/
def strip_spaces (s : List Char) : List Char :=
  ((s.dropWhile (fun c => c = ' ')).reverse.dropWhile (fun c => c = ' ')).reverse

/-- `safe_name` of `_export_audio` / `sanitize_filename`: filter, strip,
and fall back to `"flowstate_export"` when the result is empty. -/
def sanitize_name (name : String) : String :=
  if (strip_spaces (name.data.filter keep_char)).isEmpty then "flowstate_export"
  else String.mk (strip_spaces (name.data.filter keep_char))

/-! ## C7 — binaural generation (FlowState.py 467-491) -/

/-- The data `BinauralGenerator.generate` feeds ffmpeg: two sine sources
joined into one stereo stream, truncated at `-t duration`. -/
structure BinauralCommand where
  left_freq : ℚ
  right_freq : ℚ
  sample_rate : ℕ
  duration : ℚ
  deriving DecidableEq, Repr

/-- `BinauralGenerator.generate` (FlowState.py 467-491): `left_freq =
base_freq`, `right_freq = base_freq + beat_freq`, both rendered at
`sample_rate` for `duration` seconds. A pure function of its inputs — the
command holds no other source of variation. -/
def binaural_generate (duration base_freq beat_freq : ℚ) (sample_rate : ℕ) :
    BinauralCommand :=
  { left_freq := base_freq
    right_freq := base_freq + beat_freq
    sample_rate := sample_rate
    duration := duration }

/-! ## C8 — batch analysis (FlowState.py 1976-1987) -/

/-- The per-file loop of `FlowStateWindow.process_audio_files`: each file is
analyzed inside `try/except`; a success appends the track, a failure only
logs. The analyzer is abstracted as a function returning `Except` since
`analyze` may raise. -/
def process_audio_files (analyze : String → Except String AudioTrack)
    (files : List String) : List AudioTrack :=
  files.foldl
    (fun acc f =>
      match analyze f with
      | .ok t => acc ++ [t]
      | .error _ => acc)
    []

/-! ## C9 — failure path and cleanup (FlowState.py 520-527, 945-952) -/

/-- `AudioProcessor.cleanup`: each temp file removal is wrapped in
`try/except: pass`; removal outcomes are abstracted as a function returning
`Except`. The result type records whether cleanup itself can raise. -/
def cleanup (remove : String → Except String Unit) :
    List String → Except String Unit
  | [] => .ok ()
  | f :: fs =>
      match remove f with
      | .ok _ => cleanup remove fs
      | .error _ => cleanup remove fs

/-- Observable outcome of one `AudioProcessor.run` invocation. -/
structure RunOutput where
  failure_events : List String
  cleanup_result : Except String Unit
  deriving Repr

/-- `AudioProcessor.run` (FlowState.py 520-527): `process()` either
completes — having already invoked `cleanup()` in its finalizing stage
(line 620) — or raises, in which case `run` emits `error.emit(str(e))`
once and then calls `cleanup()`. -/
def run (remove : String → Except String Unit) (temp_files : List String)
    (process_result : Except String Unit) : RunOutput :=
  match process_result with
  | .ok _ => { failure_events := [], cleanup_result := cleanup remove temp_files }
  | .error e => { failure_events := [e], cleanup_result := cleanup remove temp_files }

/-! ## C10 — video-mode dispatch (FlowState.py 821-830, 918-923) -/

/-- The silent video `_create_video` builds before muxing, by mode. -/
inductive VideoSource where
  | black (duration : ℚ)
  | firstImage (image : String) (duration : ℚ)
  deriving DecidableEq, Repr

/-- `_create_image_video` (FlowState.py 918-937): guards against an empty
image list, else holds the first image for the whole duration. -/
def create_image_video (images : List String) (duration : ℚ) : VideoSource :=
  match images with
  | [] => .black duration
  | img :: _ => .firstImage img duration

/-- The mode dispatch of `_create_video` (FlowState.py 821-830):
`black_screen`, `images` (only with a non-empty image list), `hybrid`
(which delegates to `_create_black_video`, line 939-943), and a fallback
to black screen for everything else — all at the full audio duration. -/
def create_video_source (video_mode : String) (images : List String) (duration : ℚ) :
    VideoSource :=
  if video_mode = "black_screen" then .black duration
  else if video_mode = "images" ∧ images ≠ [] then create_image_video images duration
  else if video_mode = "hybrid" then .black duration
  else .black duration

/-! ## Concrete fixtures used by witnesses and counterexamples -/

/-- A low-energy, very quiet track. -/
def trLow : AudioTrack :=
  { path := "a.wav", duration := 60, loudness_lufs := -30, peak_db := -1,
    energy_profile := "low" }

/-- A mid-energy, loud track. -/
def trMid : AudioTrack :=
  { path := "b.wav", duration := 60, loudness_lufs := -10, peak_db := -1,
    energy_profile := "mid" }

/-- A high-energy track whose loudness sits next to the low track's. -/
def trHigh : AudioTrack :=
  { path := "c.wav", duration := 60, loudness_lufs := -29, peak_db := -1,
    energy_profile := "high" }

/-- Descriptor a successful analysis yields for file `f` in the batch
fixture. -/
def trGood (f : String) : AudioTrack :=
  { path := f, duration := 60, loudness_lufs := -20, peak_db := -1,
    energy_profile := "mid" }

/-- A batch analyzer that fails on one fixed file and succeeds elsewhere,
mirroring the spec's one-corrupt-file scenario. -/
def analyzeEx : String → Except String AudioTrack := fun f =>
  if f = "bad.mp3" then .error "AnalysisError" else .ok (trGood f)

/-! ## Helper lemmas -/

/-- Inserting by rank produces a permutation of consing. -/
theorem insertRank_perm (t : AudioTrack) :
    ∀ l : List AudioTrack, (insertRank t l).Perm (t :: l)
  | [] => List.Perm.refl _
  | x :: xs => by
      unfold insertRank
      by_cases h : energy_rank x.energy_profile ≤ energy_rank t.energy_profile
      · rw [if_pos h]
        exact ((insertRank_perm t xs).cons x).trans (List.Perm.swap t x xs)
      · rw [if_neg h]

/-- The fold of `sortByRank` permutes the input onto the accumulator. -/
theorem foldl_insertRank_perm :
    ∀ l acc : List AudioTrack,
      (l.foldl (fun acc t => insertRank t acc) acc).Perm (l ++ acc)
  | [], acc => by simp
  | x :: xs, acc => by
      simp only [List.foldl_cons]
      refine (foldl_insertRank_perm xs (insertRank x acc)).trans ?_
      refine (List.Perm.append_left xs (insertRank_perm x acc)).trans ?_
      exact List.perm_middle

/-- `sortByRank` returns a permutation of its input. -/
theorem sortByRank_perm (l : List AudioTrack) : (sortByRank l).Perm l := by
  simpa [sortByRank] using foldl_insertRank_perm l []

/-- Inserting by rank preserves rank-sortedness. -/
theorem insertRank_pairwise (t : AudioTrack) :
    ∀ l : List AudioTrack, l.Pairwise rankLE → (insertRank t l).Pairwise rankLE
  | [], _ => by simp [insertRank, rankLE]
  | x :: xs, h => by
      rcases List.pairwise_cons.mp h with ⟨hx, hxs⟩
      unfold insertRank
      by_cases hc : energy_rank x.energy_profile ≤ energy_rank t.energy_profile
      · rw [if_pos hc]
        refine List.pairwise_cons.mpr ⟨?_, insertRank_pairwise t xs hxs⟩
        intro y hy
        have hy' : y ∈ t :: xs := (insertRank_perm t xs).mem_iff.mp hy
        rcases List.mem_cons.mp hy' with rfl | hy''
        · exact hc
        · exact hx y hy''
      · rw [if_neg hc]
        refine List.pairwise_cons.mpr ⟨?_, h⟩
        intro y hy
        have hts : rankLE t x := le_of_not_le hc
        rcases List.mem_cons.mp hy with rfl | hy'
        · exact hts
        · exact le_trans hts (hx y hy')

/-- The fold of `sortByRank` preserves rank-sortedness of the accumulator. -/
theorem foldl_insertRank_pairwise :
    ∀ l acc : List AudioTrack, acc.Pairwise rankLE →
      (l.foldl (fun acc t => insertRank t acc) acc).Pairwise rankLE
  | [], _, h => h
  | x :: xs, acc, h => by
      simp only [List.foldl_cons]
      exact foldl_insertRank_pairwise xs (insertRank x acc) (insertRank_pairwise x acc h)

/-- `sortByRank` output is sorted by energy rank. -/
theorem sortByRank_pairwise (l : List AudioTrack) : (sortByRank l).Pairwise rankLE :=
  foldl_insertRank_pairwise l [] List.Pairwise.nil

/-- The scan behind `best_idx` stays below the end index. -/
theorem argminAux_lt (cur : ℚ) :
    ∀ (ys : List AudioTrack) (i : ℕ) (bv : ℚ) (bi : ℕ),
      bi < i → argminAux cur ys i bv bi < i + ys.length
  | [], i, bv, bi, h => by simpa [argminAux] using h
  | y :: ys, i, bv, bi, h => by
      unfold argminAux
      by_cases hc : qabs (y.loudness_lufs - cur) < bv
      · rw [if_pos hc]
        have hrec := argminAux_lt cur ys (i + 1) (qabs (y.loudness_lufs - cur)) i
          (Nat.lt_succ_self i)
        simp only [List.length_cons]
        omega
      · rw [if_neg hc]
        have hrec := argminAux_lt cur ys (i + 1) bv bi (Nat.lt_succ_of_lt h)
        simp only [List.length_cons]
        omega

/-- `best_idx` is a valid index into the remaining pool. -/
theorem argminIdx_lt (cur : ℚ) (x : AudioTrack) (xs : List AudioTrack) :
    argminIdx cur (x :: xs) < (x :: xs).length := by
  unfold argminIdx
  have := argminAux_lt cur xs 1 (qabs (x.loudness_lufs - cur)) 0 Nat.one_pos
  simp only [List.length_cons]
  omega

/-- Popping a valid index is a permutation with the popped element in front. -/
theorem getD_cons_eraseIdx_perm {α : Type} (d : α) :
    ∀ (l : List α) (i : ℕ), i < l.length → ((l.getD i d) :: l.eraseIdx i).Perm l
  | [], i, h => absurd h (by simp)
  | x :: xs, 0, _ => by simp
  | x :: xs, i + 1, h => by
      simp only [List.getD_cons_succ, List.eraseIdx_cons_succ]
      have hi : i < xs.length := by
        simp only [List.length_cons] at h
        omega
      exact (List.Perm.swap x (xs.getD i d) (xs.eraseIdx i)).trans
        ((getD_cons_eraseIdx_perm d xs i hi).cons x)

/-- The greedy selection loop permutes the remaining pool, given enough fuel. -/
theorem greedyAux_perm :
    ∀ (fuel : ℕ) (rem : List AudioTrack) (cur : ℚ),
      rem.length ≤ fuel → (greedyAux cur fuel rem).Perm rem
  | 0, rem, cur, h => by
      have hnil : rem = [] := List.eq_nil_of_length_eq_zero (Nat.le_zero.mp h)
      subst hnil
      exact List.Perm.refl _
  | fuel + 1, [], cur, _ => List.Perm.refl _
  | fuel + 1, x :: xs, cur, h => by
      have hlt : argminIdx cur (x :: xs) < (x :: xs).length := argminIdx_lt cur x xs
      have hlen : ((x :: xs).eraseIdx (argminIdx cur (x :: xs))).length ≤ fuel := by
        rw [List.length_eraseIdx, if_pos hlt]
        simp only [List.length_cons] at h ⊢
        omega
      show ((x :: xs).getD (argminIdx cur (x :: xs)) x ::
          greedyAux ((x :: xs).getD (argminIdx cur (x :: xs)) x).loudness_lufs fuel
            ((x :: xs).eraseIdx (argminIdx cur (x :: xs)))).Perm (x :: xs)
      exact ((greedyAux_perm fuel _ _ hlen).cons _).trans
        (getD_cons_eraseIdx_perm x (x :: xs) _ hlt)

/-- `optimize` returns a permutation of its input. -/
theorem optimize_perm (tracks : List AudioTrack) : (optimize tracks).Perm tracks := by
  unfold optimize
  by_cases h : tracks.length ≤ 1
  · rw [if_pos h]
  · rw [if_neg h]
    cases hs : sortByRank tracks with
    | nil =>
        have hperm := sortByRank_perm tracks
        rw [hs] at hperm
        have hlen := hperm.length_eq
        simp only [List.length_nil] at hlen
        omega
    | cons s rest =>
        have hperm := sortByRank_perm tracks
        rw [hs] at hperm
        exact ((greedyAux_perm rest.length rest s.loudness_lufs le_rfl).cons s).trans hperm

/-- `cleanup` swallows every removal error: it can only return `.ok`. -/
theorem cleanup_eq_ok (remove : String → Except String Unit) :
    ∀ fs : List String, cleanup remove fs = .ok () := by
  intro fs
  induction fs with
  | nil => rfl
  | cons f fs ih =>
      unfold cleanup
      cases remove f with
      | ok u => exact ih
      | error e => exact ih

/-! ## C1 -/

/-- C1: the claim says the safe crossfade equals
`min(configured crossfadeSeconds, shortestTrackDuration / 2)` and is `5`
for tracks of 10s and 100s with configured crossfade 8s. The source
(FlowState.py 643) adds a hard `4.0` ceiling: on that exact input the code
computes `4`, not the claimed `5`, diverging from the spec formula — the
spec (§9) flags the fixed ceiling as a bug, and the UI exposes a 1–30s
crossfade range (FlowState.py 1684) that the ceiling silently overrides. -/
theorem c1_safe_crossfade_hard_cap :
    safe_crossfade 8 10 [100] = 4 ∧
    spec_safe_crossfade 8 10 [100] = 5 ∧
    safe_crossfade 8 10 [100] ≠ spec_safe_crossfade 8 10 [100] := by
  refine ⟨?_, ?_, ?_⟩ <;> norm_num [safe_crossfade, spec_safe_crossfade, listMin, qmin]

/-! ## C3 -/

/-- C3: the claim says the single-track fade-out ends exactly at the
track's end (start = trackDuration − fadeOutSeconds). `_normalize_track`
(FlowState.py 705) hardcodes the fade-out start to `0`, so for a 100s
track with a 5s fade-out the code fades out over [0,5] instead of
[95,100]; the multi-track path (FlowState.py 666) computes the correct
start, witnessing the intent. The loudness-normalization part of the
claim (target LUFS, −1.5 dB true peak) does match the code. -/
theorem c3_normalize_fade_out_starts_at_zero :
    (normalize_track_filter 3 5 (-16)).fade_out_start = 0 ∧
    last_track_fade_start 100 5 = 95 ∧
    (normalize_track_filter 3 5 (-16)).fade_out_start ≠ last_track_fade_start 100 5 ∧
    (normalize_track_filter 3 5 (-16)).fade_in_start = 0 ∧
    (normalize_track_filter 3 5 (-16)).loudnorm_I = -16 ∧
    (normalize_track_filter 3 5 (-16)).loudnorm_TP = -3/2 := by
  refine ⟨?_, ?_, ?_, ?_, ?_, ?_⟩ <;>
    norm_num [normalize_track_filter, last_track_fade_start, qmax]

/-! ## C5 -/

/-- C5 counterexample: sanitizing `"My: Sleep/Mix!"` drops the `:`, `/`
and `!` without substituting anything, so the code yields `"My SleepMix"`
— not the `"My Sleep Mix"` the claim states. -/
theorem c5_sanitize_example_counterexample :
    sanitize_name "My: Sleep/Mix!" = "My SleepMix" ∧
    "My SleepMix" ≠ "My Sleep Mix" := by
  refine ⟨by decide, by decide⟩

/-! ## C6 -/

/-- C6 counterexample: when no loudness parses, `analyze` keeps the
default `-20.0` and classifies it, producing `"mid"` — never `"unknown"`. -/
theorem c6_failure_counterexample :
    analyze_energy none = "mid" ∧ "mid" ≠ "unknown" := by
  refine ⟨by decide, by decide⟩

/-- C6 (amended): loudness < −25 yields `"low"`, loudness in [−25, −18)
yields `"mid"`, loudness ≥ −18 yields `"high"`; a failed loudness parse
falls back to the default −20.0 and therefore yields `"mid"`. -/
theorem c6_energy_classification (l₁ l₂ l₃ : ℚ)
    (h₁ : l₁ < -25) (h₂ : -25 ≤ l₂) (h₂b : l₂ < -18) (h₃ : -18 ≤ l₃) :
    energy_of_loudness l₁ = "low" ∧
    energy_of_loudness l₂ = "mid" ∧
    energy_of_loudness l₃ = "high" ∧
    analyze_energy none = "mid" ∧
    (∀ l : ℚ, analyze_energy (some l) = energy_of_loudness l) := by
  refine ⟨?_, ?_, ?_, by decide, fun l => rfl⟩
  · unfold energy_of_loudness
    rw [if_pos h₁]
  · unfold energy_of_loudness
    rw [if_neg (not_lt.mpr h₂), if_pos h₂b]
  · unfold energy_of_loudness
    rw [if_neg (not_lt.mpr (le_trans (by norm_num) h₃)), if_neg (not_lt.mpr h₃)]

/-- C6 witness: the three bands evaluated at −30, −20 and −10 LUFS. -/
theorem c6_energy_witness :
    (-30 : ℚ) < -25 ∧ (-25 : ℚ) ≤ -20 ∧ (-20 : ℚ) < -18 ∧ (-18 : ℚ) ≤ -10 ∧
    energy_of_loudness (-30) = "low" ∧
    energy_of_loudness (-20) = "mid" ∧
    energy_of_loudness (-10) = "high" := by
  have h := c6_energy_classification (-30) (-20) (-10)
    (by norm_num) (by norm_num) (by norm_num) (by norm_num)
  exact ⟨by norm_num, by norm_num, by norm_num, by norm_num, h.1, h.2.1, h.2.2.1⟩

/-! ## C7 -/

/-- C7: `BinauralGenerator.generate` is deterministic — two runs with the
same (duration, base, beat, sampleRate) produce the same command, hence
identical output — and in every run the right-channel frequency is
`base + beat` while the left channel is `base`. -/
theorem c7_binaural_deterministic (d b bt : ℚ) (sr : ℕ) (d' b' bt' : ℚ) (sr' : ℕ)
    (hd : d = d') (hb : b = b') (hbt : bt = bt') (hsr : sr = sr') :
    binaural_generate d b bt sr = binaural_generate d' b' bt' sr' ∧
    (binaural_generate d b bt sr).right_freq = b + bt ∧
    (binaural_generate d b bt sr).left_freq = b := by
  subst hd hb hbt hsr
  exact ⟨rfl, rfl, rfl⟩

/-- C7 witness: the 200 Hz base / 2.5 Hz beat preset yields the
(200 Hz, 202.5 Hz) stereo pair, reproducibly. -/
theorem c7_binaural_witness :
    binaural_generate 600 200 (5/2) 48000 = binaural_generate 600 200 (5/2) 48000 ∧
    (binaural_generate 600 200 (5/2) 48000).right_freq = 200 + 5/2 ∧
    (binaural_generate 600 200 (5/2) 48000).left_freq = 200 :=
  c7_binaural_deterministic 600 200 (5/2) 48000 600 200 (5/2) 48000 rfl rfl rfl rfl

/-! ## C9 -/

/-- C9: when `process` raises, `run` emits exactly one failure event
carrying the underlying error message and then runs cleanup over the temp
files created so far; cleanup returns successfully — it swallows its own
errors — on the failure path and on the success path alike, whatever the
individual file removals do. -/
theorem c9_single_failure_event_and_total_cleanup
    (remove : String → Except String Unit) (temp_files : List String) (e : String) :
    (run remove temp_files (.error e)).failure_events = [e] ∧
    (run remove temp_files (.error e)).cleanup_result = .ok () ∧
    (run remove temp_files (.ok ())).failure_events = [] ∧
    (run remove temp_files (.ok ())).cleanup_result = .ok () :=
  ⟨rfl, cleanup_eq_ok remove temp_files, rfl, cleanup_eq_ok remove temp_files⟩

/-! ## C10 -/

/-- C10: when the mode is `"images"` with an empty image list, or the mode
is none of the recognized `"black_screen"`, `"images"`, `"hybrid"`, the
video stage does not fail: `_create_video` falls back to the black-screen
branch at the full audio duration. -/
theorem c10_video_black_fallback (video_mode : String) (images : List String) (d : ℚ)
    (h : (video_mode = "images" ∧ images = []) ∨
      (video_mode ≠ "black_screen" ∧ video_mode ≠ "images" ∧ video_mode ≠ "hybrid")) :
    create_video_source video_mode images d = VideoSource.black d := by
  unfold create_video_source
  rcases h with ⟨hm, him⟩ | ⟨h1, h2, h3⟩
  · subst hm him
    simp
  · rw [if_neg h1, if_neg (fun hc => h2 hc.1), if_neg h3]

/-- C10 witness: empty image list in `images` mode, and an unrecognized
mode, both yield the black-screen video at the audio duration. -/
theorem c10_video_fallback_witness :
    create_video_source "images" [] 100 = VideoSource.black 100 ∧
    create_video_source "sparkle" ["a.png"] 100 = VideoSource.black 100 :=
  ⟨c10_video_black_fallback "images" [] 100 (Or.inl ⟨rfl, rfl⟩),
   c10_video_black_fallback "sparkle" ["a.png"] 100
     (Or.inr ⟨by decide, by decide, by decide⟩)⟩

/-! ## C2 -/

/-- C2 counterexample: a low track at −30 LUFS, a mid track at −10 LUFS
and a high track at −29 LUFS. The stable sort yields low, mid, high, but
the greedy loudness phase then picks the high track (Δ = 1 LUFS) before
the mid track (Δ = 20 LUFS), so the output order is low, high, mid — the
energy-class rank sequence 0, 2, 1 is not non-decreasing. -/
theorem c2_energy_order_counterexample :
    ¬ ranksMonotone (optimize [trLow, trMid, trHigh]) := by
  have hopt : optimize [trLow, trMid, trHigh] = [trLow, trHigh, trMid] := by
    norm_num [optimize, sortByRank, insertRank, energy_rank, argminIdx, argminAux,
      greedyAux, qabs, trLow, trMid, trHigh, List.eraseIdx, List.getD, List.get?]
  rw [hopt]
  simp [ranksMonotone, List.chain'_cons, energy_rank, trLow, trMid, trHigh]

/-- C2 (amended): for every non-empty track list, `optimize` returns a
permutation of the input that starts with a track of minimal energy-class
rank under the fixed rank low < mid/unknown < high. The full non-decreasing
coarse ordering claimed of the whole output does not survive the greedy
loudness phase, which ignores energy class when picking the next track. -/
theorem c2_optimize_perm_min_head (tracks : List AudioTrack) (h : tracks ≠ []) :
    (optimize tracks).Perm tracks ∧
    ∃ y ys, optimize tracks = y :: ys ∧
      ∀ x ∈ tracks, energy_rank y.energy_profile ≤ energy_rank x.energy_profile := by
  refine ⟨optimize_perm tracks, ?_⟩
  by_cases hlen : tracks.length ≤ 1
  · match tracks, h with
    | [t], _ =>
        refine ⟨t, [], by simp [optimize], ?_⟩
        intro x hx
        rcases List.mem_singleton.mp hx with rfl
        exact le_rfl
    | t :: t' :: ts, _ => simp at hlen
  · cases hs : sortByRank tracks with
    | nil =>
        have hperm := sortByRank_perm tracks
        rw [hs] at hperm
        have hlen0 := hperm.length_eq
        simp only [List.length_nil] at hlen0
        omega
    | cons s rest =>
        refine ⟨s, greedyAux s.loudness_lufs rest.length rest, ?_, ?_⟩
        · unfold optimize
          rw [if_neg hlen, hs]
        · intro x hx
          have hperm := sortByRank_perm tracks
          rw [hs] at hperm
          have hx' : x ∈ s :: rest := hperm.mem_iff.mpr hx
          have hpw := sortByRank_pairwise tracks
          rw [hs] at hpw
          rcases List.pairwise_cons.mp hpw with ⟨hmin, _⟩
          rcases List.mem_cons.mp hx' with rfl | hx''
          · exact le_rfl
          · exact hmin x hx''

/-- C2 witness: the three-track fixture — the optimizer output is a
permutation of it starting at the unique low-rank track. -/
theorem c2_optimize_witness :
    ([trLow, trMid, trHigh] : List AudioTrack) ≠ [] ∧
    ((optimize [trLow, trMid, trHigh]).Perm [trLow, trMid, trHigh] ∧
      ∃ y ys, optimize [trLow, trMid, trHigh] = y :: ys ∧
        ∀ x ∈ [trLow, trMid, trHigh],
          energy_rank y.energy_profile ≤ energy_rank x.energy_profile) :=
  ⟨List.cons_ne_nil _ _,
   c2_optimize_perm_min_head [trLow, trMid, trHigh] (List.cons_ne_nil _ _)⟩

/-! ## C5 (amended) -/

/-- The head of `dropWhile p` never satisfies `p`. -/
theorem head?_dropWhile_false (p : Char → Bool) :
    ∀ (l : List Char) (a : Char), (l.dropWhile p).head? = some a → p a = false
  | [], a, h => by simp [List.dropWhile] at h
  | x :: xs, a, h => by
      rw [List.dropWhile_cons] at h
      by_cases hp : p x
      · rw [if_pos hp] at h
        exact head?_dropWhile_false p xs a h
      · rw [if_neg hp] at h
        simp only [List.head?_cons, Option.some.injEq] at h
        subst h
        exact Bool.not_eq_true _ ▸ (Bool.of_not_eq_true hp)

/-- When `dropWhile p` keeps anything, it keeps the original last element. -/
theorem getLast?_dropWhile (p : Char → Bool) :
    ∀ l : List Char, l.dropWhile p ≠ [] → (l.dropWhile p).getLast? = l.getLast?
  | [], h => absurd rfl h
  | x :: xs, h => by
      rw [List.dropWhile_cons] at h ⊢
      by_cases hp : p x
      · rw [if_pos hp] at h ⊢
        rw [getLast?_dropWhile p xs h]
        cases xs with
        | nil => simp [List.dropWhile] at h
        | cons b bs => rw [List.getLast?_cons_cons]
      · rw [if_neg hp]

/-- Elements of the stripped list come from the original list. -/
theorem mem_of_mem_strip_spaces {c : Char} (l : List Char) (h : c ∈ strip_spaces l) :
    c ∈ l := by
  unfold strip_spaces at h
  rw [List.mem_reverse] at h
  have h1 := (List.dropWhile_sublist _).mem h
  rw [List.mem_reverse] at h1
  exact (List.dropWhile_sublist _).mem h1

/-- The stripped list never starts with a space. -/
theorem strip_spaces_head_ne_space (l : List Char) (a : Char)
    (h : (strip_spaces l).head? = some a) : a ≠ ' ' := by
  unfold strip_spaces at h
  rw [List.head?_reverse] at h
  have hne : (l.dropWhile (fun c => c = ' ')).reverse.dropWhile (fun c => c = ' ') ≠ [] := by
    intro h0
    rw [h0] at h
    simp at h
  rw [getLast?_dropWhile _ _ hne, List.getLast?_reverse] at h
  have := head?_dropWhile_false (fun c => c = ' ') l a h
  simpa using this

/-- The stripped list never ends with a space. -/
theorem strip_spaces_getLast_ne_space (l : List Char) (a : Char)
    (h : (strip_spaces l).getLast? = some a) : a ≠ ' ' := by
  unfold strip_spaces at h
  rw [List.getLast?_reverse] at h
  have := head?_dropWhile_false (fun c => c = ' ') _ a h
  simpa using this

/-- C5 (amended): sanitization keeps only alphanumerics, hyphen,
underscore and space, strips leading and trailing spaces, and falls back
to the literal `"flowstate_export"` when nothing remains — but the worked
example comes out as `"My SleepMix"`: the dropped `/` is not replaced by a
space, so the claimed `"My Sleep Mix"` is off by one space. -/
theorem c5_sanitize_name_spec (name : String) :
    sanitize_name name ≠ "" ∧
    (∀ c ∈ (sanitize_name name).data, keep_char c = true) ∧
    (∀ a, (sanitize_name name).data.head? = some a → a ≠ ' ') ∧
    (∀ a, (sanitize_name name).data.getLast? = some a → a ≠ ' ') ∧
    sanitize_name "My: Sleep/Mix!" = "My SleepMix" ∧
    sanitize_name "!!!" = "flowstate_export" := by
  have hex1 : sanitize_name "My: Sleep/Mix!" = "My SleepMix" := by decide
  have hex2 : sanitize_name "!!!" = "flowstate_export" := by decide
  by_cases hs : (strip_spaces (name.data.filter keep_char)).isEmpty
  · have hval : sanitize_name name = "flowstate_export" := by
      unfold sanitize_name
      rw [if_pos hs]
    refine ⟨by rw [hval]; decide, ?_, ?_, ?_, hex1, hex2⟩
    · rw [hval]
      decide
    · rw [hval]
      intro a ha
      have hf : ("flowstate_export" : String).data.head? = some 'f' := by decide
      rw [hf] at ha
      cases ha
      decide
    · rw [hval]
      intro a ha
      have ht : ("flowstate_export" : String).data.getLast? = some 't' := by decide
      rw [ht] at ha
      cases ha
      decide
  · have hne : strip_spaces (name.data.filter keep_char) ≠ [] := by
      intro h0
      rw [h0] at hs
      simp at hs
    have hval : sanitize_name name = String.mk (strip_spaces (name.data.filter keep_char)) := by
      unfold sanitize_name
      rw [if_neg hs]
    refine ⟨?_, ?_, ?_, ?_, hex1, hex2⟩
    · rw [hval]
      intro h0
      apply hne
      have : (String.mk (strip_spaces (name.data.filter keep_char))).data = ("" : String).data := by
        rw [h0]
      simpa using this
    · rw [hval]
      intro c hc
      have hc' : c ∈ name.data.filter keep_char := mem_of_mem_strip_spaces _ hc
      exact List.of_mem_filter hc'
    · rw [hval]
      intro a ha
      exact strip_spaces_head_ne_space _ a ha
    · rw [hval]
      intro a ha
      exact strip_spaces_getLast_ne_space _ a ha

/-- C5 witness: the worked example — non-empty result, a kept character,
and the corrected output string. -/
theorem c5_sanitize_witness :
    sanitize_name "My: Sleep/Mix!" ≠ "" ∧
    keep_char 'M' = true ∧
    sanitize_name "My: Sleep/Mix!" = "My SleepMix" := by
  have h := c5_sanitize_name_spec "My: Sleep/Mix!"
  exact ⟨h.1, h.2.1 'M' (by decide), h.2.2.2.2.1⟩

/-! ## C8 -/

/-- Unrolling the per-file `try/except` accumulation into `filterMap`. -/
theorem foldl_analyze_eq (analyze : String → Except String AudioTrack) :
    ∀ (files : List String) (acc : List AudioTrack),
      files.foldl
        (fun acc f =>
          match analyze f with
          | .ok t => acc ++ [t]
          | .error _ => acc)
        acc
      = acc ++ files.filterMap (fun f => (analyze f).toOption)
  | [], acc => by simp
  | f :: fs, acc => by
      simp only [List.foldl_cons, List.filterMap_cons]
      cases hf : analyze f with
      | ok t =>
          rw [foldl_analyze_eq analyze fs (acc ++ [t])]
          simp [Except.toOption]
      | error e =>
          rw [foldl_analyze_eq analyze fs acc]
          simp [Except.toOption]

/-- C8: a per-file analysis failure does not abort the batch — the result
is exactly the successful analyses in input order, so every file whose
analysis succeeds contributes its descriptor and only failing files are
dropped. -/
theorem c8_batch_partial_failure (analyze : String → Except String AudioTrack)
    (files : List String) :
    process_audio_files analyze files
      = files.filterMap (fun f => (analyze f).toOption) ∧
    ∀ f ∈ files, ∀ t : AudioTrack, analyze f = .ok t →
      t ∈ process_audio_files analyze files := by
  have heq : process_audio_files analyze files
      = files.filterMap (fun f => (analyze f).toOption) := by
    unfold process_audio_files
    simpa using foldl_analyze_eq analyze files []
  refine ⟨heq, ?_⟩
  intro f hf t ht
  rw [heq]
  exact List.mem_filterMap.mpr ⟨f, hf, by rw [ht]; rfl⟩

/-- C8 witness: three files with one corrupt — the first good file's
descriptor survives the batch. -/
theorem c8_batch_witness :
    ("good1.mp3" : String) ∈ ["good1.mp3", "bad.mp3", "good2.mp3"] ∧
    analyzeEx "good1.mp3" = Except.ok (trGood "good1.mp3") ∧
    trGood "good1.mp3" ∈
      process_audio_files analyzeEx ["good1.mp3", "bad.mp3", "good2.mp3"] := by
  have hok : analyzeEx "good1.mp3" = Except.ok (trGood "good1.mp3") := by
    simp [analyzeEx]
  exact ⟨List.mem_cons_self _ _, hok,
    (c8_batch_partial_failure analyzeEx ["good1.mp3", "bad.mp3", "good2.mp3"]).2
      "good1.mp3" (List.mem_cons_self _ _) (trGood "good1.mp3") hok⟩

/-! ## C4 -/

/-- With a source of positive duration, looping then truncating at the
target lasts exactly the target. -/
theorem loop_audio_duration_eq (src target : ℚ) (hsrc : 0 < src) :
    loop_audio_duration src target = target := by
  unfold loop_audio_duration qmin
  rw [if_pos hsrc]
  have h1 : target / src ≤ ((⌈target / src⌉ : ℤ) : ℚ) := Int.le_ceil _
  have h2 : target ≤ ((⌈target / src⌉ : ℤ) : ℚ) * src := by
    calc target = target / src * src := (div_mul_cancel₀ _ (ne_of_gt hsrc)).symm
      _ ≤ ((⌈target / src⌉ : ℤ) : ℚ) * src :=
        mul_le_mul_of_nonneg_right h1 (le_of_lt hsrc)
  by_cases hle : ((⌈target / src⌉ : ℤ) : ℚ) * src ≤ target
  · rw [if_pos hle]
    exact le_antisymm hle h2
  · rw [if_neg hle]

/-- C4: the loop stage replaces the mixed audio only when loop mode is on,
the target is positive, and the target exceeds the current duration; when
it runs, the output duration is exactly the target in seconds; otherwise —
in particular whenever the mixed duration already meets or exceeds the
target — the mixed audio is left unchanged. -/
theorem c4_loop_expander (loop_mode : Bool) (target_minutes current : ℚ)
    (hcur : 0 < current) :
    (loop_ran loop_mode target_minutes current →
      loop_mode = true ∧ current < target_minutes * 60) ∧
    (loop_ran loop_mode target_minutes current →
      loop_stage_duration loop_mode target_minutes current = target_minutes * 60) ∧
    (¬ loop_ran loop_mode target_minutes current →
      loop_stage_duration loop_mode target_minutes current = current) := by
  refine ⟨fun h => ⟨h.1, h.2.2⟩, fun h => ?_, fun h => ?_⟩
  · unfold loop_stage_duration
    rw [if_pos h]
    exact loop_audio_duration_eq current (target_minutes * 60) hcur
  · unfold loop_stage_duration
    rw [if_neg h]

/-- C4 witness: a 892s mix, loop mode on, 480-minute (8h) target — the
loop runs and the output lasts exactly 28800s; with the target already
met, the stage is a no-op. -/
theorem c4_loop_witness :
    (0 : ℚ) < 892 ∧
    loop_ran true 480 892 ∧
    loop_stage_duration true 480 892 = 480 * 60 ∧
    loop_stage_duration true 480 30000 = 30000 := by
  have hran : loop_ran true 480 892 := ⟨rfl, by norm_num, by norm_num⟩
  have hnot : ¬ loop_ran true 480 30000 := by
    intro hcon
    have := hcon.2.2
    norm_num at this
  exact ⟨by norm_num, hran,
    (c4_loop_expander true 480 892 (by norm_num)).2.1 hran,
    (c4_loop_expander true 480 30000 (by norm_num)).2.2 hnot⟩

end FlowState
